import Mathlib

/-!
# Verification of the techon stack-language interpreter

Shallow embedding of the techon repository (lexer, parser, runner) in Lean 4,
with theorems checking the natural-language specification's claims against the
code. Go slices holding the evaluation stack are modelled as `List Int` with
the top of the stack at the END of the list (matching the Go code's use of
`append`/`len`); Go maps used only for lookup and fresh insertion are modelled
as association lists with latest-insertion-wins lookup; Go `int` is modelled as
`Int` (the spec leaves host integer width an open question); a Go function
returning `error` is modelled as returning an error value, and a Go runtime
panic (division by zero) is modelled as a distinguished `fault` result.
-/

set_option maxRecDepth 8000

namespace Techon

/-! ## Lexer (token kinds, from lexer/token file) -/

/-- Token kinds, in the order of the Go `Token` constants. -/
inductive Token where
  | ILLEGAL | EOF | WS
  | Variable | Ident | Number | Cells
  | Minus | Plus | Multiply | Divide | Modulus
  | EQ | LT | GT | LTE | GTE
  | Drop | Dup | Swap | Comment
  | Get | Store
  | If | Else | Then | While | Repeat
  | StartFunc | EndFunc
  | Quit
deriving DecidableEq

/-- `Token.String` from the Go lexer (used in parser error messages). -/
def Token.gostr : Token → String
  | .ILLEGAL => "ILLEGAL"
  | .EOF => "EOF"
  | .WS => "WS"
  | .Variable => "Variable"
  | .Ident => "Ident"
  | .Number => "Number"
  | .Cells => "Cells"
  | .Minus => "Minus"
  | .Plus => "Plus"
  | .Multiply => "Multiply"
  | .Divide => "Divide"
  | .Modulus => "Modulus"
  | .EQ => "EQ"
  | .LT => "LT"
  | .GT => "GT"
  | .LTE => "LTE"
  | .GTE => "GTE"
  | .Drop => "Drop"
  | .Dup => "Dup"
  | .Swap => "Swap"
  | .Comment => "Comment"
  | .Get => "Get"
  | .Store => "Store"
  | .If => "If"
  | .Else => "Else"
  | .Then => "Then"
  | .While => "While"
  | .Repeat => "Repeat"
  | .StartFunc => "StartFunc"
  | .EndFunc => "EndFunc"
  | .Quit => "Quit"

/-! ## Lexer (scanner) -/

/-- Modelled from the spec: the tokenizer's character-class helpers live in a
lexer helper file that is not under src/ (only their call sites are); per the
spec the tokenizer classifies whitespace, decimal digits and (ASCII) letters. -/
def isWhitespace (ch : Char) : Bool := ch == ' ' || ch == '\t' || ch == '\n'

/-- Modelled from the spec: see `isWhitespace`. -/
def isLetter (ch : Char) : Bool := ('a' ≤ ch && ch ≤ 'z') || ('A' ≤ ch && ch ≤ 'Z')

/-- Modelled from the spec: see `isWhitespace`. -/
def isDigit (ch : Char) : Bool := '0' ≤ ch && ch ≤ '9'

def identChar (ch : Char) : Bool := isLetter ch || isDigit ch || ch == '_'

/-- `scanWhitespace`: consume the current rune and all contiguous whitespace. -/
def scanWhitespace : List Char → Token × String × List Char
  | [] => (.WS, "", [])
  | ch :: rest =>
    (.WS, String.mk (ch :: rest.takeWhile isWhitespace), rest.dropWhile isWhitespace)

/-- ASCII upper-casing (`strings.ToUpper` on the keyword candidates). -/
def toUpperAscii (s : List Char) : List Char :=
  s.map (fun c => if 'a' ≤ c && c ≤ 'z' then Char.ofNat (c.toNat - 32) else c)

/-- The keyword switch at the end of the Go `scanIdent`. -/
def identToken (l : List Char) : Token :=
  match String.mk (toUpperAscii l) with
  | "VARIABLE" => .Variable
  | "CELLS" => .Cells
  | "IF" => .If
  | "ELSE" => .Else
  | "THEN" => .Then
  | "WHILE" => .While
  | "REPEAT" => .Repeat
  | "QUIT" => .Quit
  | "MOD" => .Modulus
  | "DROP" => .Drop
  | "DUP" => .Dup
  | "SWAP" => .Swap
  | _ => .Ident

/-- `scanIdent`: consume the current rune and all contiguous ident runes,
then classify keywords case-insensitively. -/
def scanIdent : List Char → Token × String × List Char
  | [] => (.Ident, "", [])
  | ch :: rest =>
    let l := ch :: rest.takeWhile identChar
    (identToken l, String.mk l, rest.dropWhile identChar)

/-- `scanNumber`: consume the current rune (a digit, or a minus sign directly
followed by a digit) and all contiguous digits. -/
def scanNumber : List Char → Token × String × List Char
  | [] => (.Number, "", [])
  | ch :: rest =>
    (.Number, String.mk (ch :: rest.takeWhile isDigit), rest.dropWhile isDigit)

/-- `scanComparator`: `=` alone is EQ; `<`/`>` become LTE/GTE only when the
very next rune is `=`, else LT/GT. -/
def scanComparator : List Char → Token × String × List Char
  | [] => (.ILLEGAL, "", [])
  | ch :: rest =>
    if ch == '=' then (.EQ, "=", rest)
    else
      match rest with
      | [] =>
        match ch with
        | '<' => (.LT, "<", [])
        | '>' => (.GT, ">", [])
        | _ => (.ILLEGAL, String.mk [ch, Char.ofNat 0], [])
      | next :: rest' =>
        if next == '=' then
          match ch with
          | '<' => (.LTE, "<=", rest')
          | '>' => (.GTE, ">=", rest')
          | _ => (.ILLEGAL, String.mk [ch, next], rest')
        else
          match ch with
          | '<' => (.LT, "<", next :: rest')
          | '>' => (.GT, ">", next :: rest')
          | _ => (.ILLEGAL, String.mk [ch, next], next :: rest')

/-- The comment-scanning loop: take runes up to and including the first `)`
(or all runes when no `)` appears before end of input). -/
def commentTake : List Char → List Char × List Char
  | [] => ([], [])
  | c :: rest =>
    if c == ')' then ([c], rest)
    else (c :: (commentTake rest).1, (commentTake rest).2)

/-- `scanComment`: consume `(` and everything up to and including `)`. -/
def scanComment : List Char → Token × String × List Char
  | [] => (.Comment, "", [])
  | ch :: rest =>
    (.Comment, String.mk (ch :: (commentTake rest).1), (commentTake rest).2)

/-- `Scanner.Scan`: classify and consume one token from the input. End of
input (a failed read in Go, yielding `rune(0)`) produces `EOF`; a literal NUL
rune in the stream also hits the Go `case eof` and produces `EOF`. -/
def Scan : List Char → Token × String × List Char
  | [] => (.EOF, "", [])
  | ch :: rest =>
    if isWhitespace ch then scanWhitespace (ch :: rest)
    else if isDigit ch then scanNumber (ch :: rest)
    else if ch == '-' then
      match rest with
      | next :: _ => if isDigit next then scanNumber (ch :: rest) else (.Minus, "-", rest)
      | [] => (.Minus, "-", [])
    else if isLetter ch then scanIdent (ch :: rest)
    else if ch == '(' then scanComment (ch :: rest)
    else
      match ch with
      | '\x00' => (.EOF, "", rest)
      | '+' => (.Plus, "+", rest)
      | '*' => (.Multiply, "*", rest)
      | '/' => (.Divide, "/", rest)
      | ':' => (.StartFunc, ":", rest)
      | ';' => (.EndFunc, ";", rest)
      | '@' => (.Get, "@", rest)
      | '!' => (.Store, "!", rest)
      | '<' => scanComparator (ch :: rest)
      | '>' => scanComparator (ch :: rest)
      | '=' => scanComparator (ch :: rest)
      | _ => (.ILLEGAL, String.mk [ch], rest)

/-- The whitespace-skipping loop of `Parser.scan`, structurally recursive on a
step bound. By `scan_ws_length` every `WS` step strictly shrinks the input, so
the bound used by `lexNext` is never exhausted and the base case (which would
return a `WS` token) is unreachable. -/
def lexNextF : Nat → List Char → Token × String × List Char
  | 0, s => Scan s
  | fuel + 1, s =>
    match Scan s with
    | (.WS, _, rest) => lexNextF fuel rest
    | r => r

/-- The parser-side token pull: scan, transparently skipping `WS` tokens
(the `for tok == lexer.WS` loop inside `Parser.scan`). -/
def lexNext (s : List Char) : Token × String × List Char :=
  lexNextF (s.length + 1) s

/-! ## Parser: pushback reader and AST -/

/-- One buffered (token, lexeme) pair (the Go `lex` struct). -/
structure Lex where
  tok : Token
  lit : String
deriving DecidableEq

/-- Parser state: remaining scanner input plus the 100-slot circular pushback
buffer with its `actual` (read) and `latest` (write) cursors. -/
structure Parser where
  inp : List Char
  buf : List Lex
  actual : Nat
  latest : Nat
deriving DecidableEq

/-- `NewParser`: fresh state over the whole source text; `make([]lex, 100)`
zero-initializes the buffer. -/
def NewParser (src : String) : Parser :=
  { inp := src.data, buf := List.replicate 100 ⟨.ILLEGAL, ""⟩, actual := 0, latest := 0 }

/-- `Parser.scan`: replay a pushed-back token if any, else pull the next
non-whitespace token from the scanner and record it in the ring buffer. -/
def Parser.scan (p : Parser) : Token × String × Parser :=
  if p.actual ≠ p.latest then
    let lx := p.buf.getD p.actual ⟨.ILLEGAL, ""⟩
    (lx.tok, lx.lit, { p with actual := (p.actual + 1) % 100 })
  else
    let r := lexNext p.inp
    let latest' := (p.latest + 1) % 100
    (r.1, r.2.1,
      { inp := r.2.2, buf := p.buf.set p.actual ⟨r.1, r.2.1⟩,
        actual := latest', latest := latest' })

/-- `Parser.unscan`: move the read cursor one slot backwards (with wraparound). -/
def Parser.unscan (p : Parser) : Parser :=
  { p with actual := if p.actual = 0 then 99 else p.actual - 1 }

/-- The statement AST (the Go `parser` package's `Statement` variants; a
`Program` is itself a statement value accepted by the runner). -/
inductive Stmt where
  | prog (sts : List Stmt)
  | comment (body : String)
  | decl (name : String) (cells : Int)
  | func (name : String) (body : List Stmt)
  | pushNumber (n : Int)
  | identCall (name : String)
  | mathOp (t : Token)
  | drop
  | dup
  | swap
  | compareOp (t : Token)
  | get
  | store
  | ifStmt (body elseBody : List Stmt)
  | whileStmt (body : List Stmt)
  | quit

/-- `strconv.Atoi`: optional sign followed by at least one decimal digit
(overflow, which Go reports for out-of-64-bit-range literals, is not modelled;
the spec leaves integer width an open question). -/
def digitsVal : List Char → Option Nat
  | [] => none
  | l =>
    if l.all isDigit then
      some (l.foldl (fun acc c => acc * 10 + (c.toNat - 48)) 0)
    else none

def atoi : String → Option Int
  | s =>
    match s.data with
    | '-' :: rest => (digitsVal rest).map (fun n => -(n : Int))
    | '+' :: rest => (digitsVal rest).map (fun n => (n : Int))
    | l => (digitsVal l).map (fun n => (n : Int))

/-! ## Parser: parsing functions

The Go parsing routines recurse through `parseCommon` (if/while/function
bodies); the embedding threads a fuel parameter that strictly decreases on
every such recursive step, so any sufficiently large fuel yields the Go
behaviour on terminating parses. -/

/-- `parsePushNumber`. -/
def parsePushNumber (p : Parser) : Except String (Stmt × Parser) :=
  let r := p.scan
  match atoi r.2.1 with
  | none => .error ("invalid number literal: " ++ r.2.1)
  | some nr => .ok (.pushNumber nr, r.2.2)

/-- `parseIdentifierCall`. -/
def parseIdentifierCall (p : Parser) : Except String (Stmt × Parser) :=
  let r := p.scan
  .ok (.identCall r.2.1, r.2.2)

/-- `parseMathOperation`. -/
def parseMathOperation (p : Parser) : Except String (Stmt × Parser) :=
  let r := p.scan
  .ok (.mathOp r.1, r.2.2)

/-- `parseCompareOperation`. -/
def parseCompareOperation (p : Parser) : Except String (Stmt × Parser) :=
  let r := p.scan
  .ok (.compareOp r.1, r.2.2)

/-- `parseVariableDeclaration`: discard `VARIABLE`, read the identifier, then
look ahead two tokens for the optional `NUMBER CELLS` suffix. -/
def parseVariableDeclaration (p : Parser) : Except String (Stmt × Parser) :=
  let d := p.scan
  let r := d.2.2.scan
  if r.1 ≠ .Ident then .error "expected variable identifier"
  else
    let name := r.2.1
    let r1 := r.2.2.scan
    let r2 := r1.2.2.scan
    if r1.1 = .Number ∧ r2.1 = .Cells then
      match atoi r1.2.1 with
      | none => .error ("invalid number literal: " ++ r1.2.1)
      | some cells =>
        if cells ≤ 0 then .error "array cannot have less than 1 cell"
        else .ok (.decl name cells, r2.2.2)
    else
      .ok (.decl name 1, r2.2.2.unscan.unscan)

/-- The bundle of mutually recursive parsing routines at one fuel level. The
Go routines recurse freely; here fuel strictly decreases on every recursive
step (structurally, so that parses of concrete programs compute), and any
sufficiently large fuel reproduces the Go behaviour on terminating parses. -/
structure ParseFns where
  program : Parser → Except String (List Stmt × Parser)
  common : Parser → Except String (Option Stmt × Parser)
  pfunc : Parser → Except String (Stmt × Parser)
  funcLoop : Parser → String → List Stmt → Except String (Stmt × Parser)
  ifStatement : Parser → Except String (Stmt × Parser)
  ifLoop : Parser → List Stmt → List Stmt → Bool → Except String (Stmt × Parser)
  whileStatement : Parser → Except String (Stmt × Parser)
  whileLoop : Parser → List Stmt → Except String (Stmt × Parser)

def parseFnsZero : ParseFns :=
  { program := fun _ => .error "parser fuel exhausted"
    common := fun _ => .error "parser fuel exhausted"
    pfunc := fun _ => .error "parser fuel exhausted"
    funcLoop := fun _ _ _ => .error "parser fuel exhausted"
    ifStatement := fun _ => .error "parser fuel exhausted"
    ifLoop := fun _ _ _ _ => .error "parser fuel exhausted"
    whileStatement := fun _ => .error "parser fuel exhausted"
    whileLoop := fun _ _ => .error "parser fuel exhausted" }

/-- `parseProgram` body: top-level loop accumulating statements until `EOF`. -/
def programBody (prev : ParseFns) (p : Parser) : Except String (List Stmt × Parser) :=
  match prev.common p with
  | .error e => .error e
  | .ok (some st, p') =>
    match prev.program p' with
    | .error e => .error e
    | .ok (sts, p'') => .ok (st :: sts, p'')
  | .ok (none, p') =>
    let r := p'.scan
    match r.1 with
    | .EOF => .ok ([], r.2.2)
    | .Variable =>
      match parseVariableDeclaration r.2.2.unscan with
      | .error e => .error e
      | .ok (st, p3) =>
        match prev.program p3 with
        | .error e => .error e
        | .ok (sts, p4) => .ok (st :: sts, p4)
    | .StartFunc =>
      match prev.pfunc r.2.2.unscan with
      | .error e => .error e
      | .ok (st, p3) =>
        match prev.program p3 with
        | .error e => .error e
        | .ok (sts, p4) => .ok (st :: sts, p4)
    | t => .error ("found invalid token: " ++ t.gostr)

/-- `parseCommon` body: try to parse one common statement; `none` means the
next token is not a common-statement starter and has been pushed back. -/
def commonBody (prev : ParseFns) (p : Parser) : Except String (Option Stmt × Parser) :=
  let r := p.scan
  match r.1 with
  | .Number =>
    match parsePushNumber r.2.2.unscan with
    | .error e => .error e
    | .ok (st, q) => .ok (some st, q)
  | .Ident =>
    match parseIdentifierCall r.2.2.unscan with
    | .error e => .error e
    | .ok (st, q) => .ok (some st, q)
  | .Minus | .Plus | .Multiply | .Divide | .Modulus =>
    match parseMathOperation r.2.2.unscan with
    | .error e => .error e
    | .ok (st, q) => .ok (some st, q)
  | .EQ | .LT | .GT | .LTE | .GTE =>
    match parseCompareOperation r.2.2.unscan with
    | .error e => .error e
    | .ok (st, q) => .ok (some st, q)
  | .Drop => .ok (some .drop, r.2.2)
  | .Dup => .ok (some .dup, r.2.2)
  | .Swap => .ok (some .swap, r.2.2)
  | .Comment => .ok (some (.comment (String.mk ((r.2.1.data.drop 1).dropLast))), r.2.2)
  | .Get => .ok (some .get, r.2.2)
  | .Store => .ok (some .store, r.2.2)
  | .If =>
    match prev.ifStatement r.2.2.unscan with
    | .error e => .error e
    | .ok (st, q) => .ok (some st, q)
  | .While =>
    match prev.whileStatement r.2.2.unscan with
    | .error e => .error e
    | .ok (st, q) => .ok (some st, q)
  | .Quit => .ok (some .quit, r.2.2)
  | _ => .ok (none, r.2.2.unscan)

/-- `parseFunc` body: `:` IDENT { CommonStmt } `;`. -/
def funcBody (prev : ParseFns) (p : Parser) : Except String (Stmt × Parser) :=
  let d := p.scan
  let r := d.2.2.scan
  if r.1 ≠ .Ident then .error "expected function identifier"
  else prev.funcLoop r.2.2 r.2.1 []

/-- The body-accumulation loop of `parseFunc`. -/
def funcLoopBody (prev : ParseFns) (p : Parser) (name : String) (acc : List Stmt) :
    Except String (Stmt × Parser) :=
  match prev.common p with
  | .error e => .error e
  | .ok (some st, p') => prev.funcLoop p' name (acc ++ [st])
  | .ok (none, p') =>
    let r := p'.scan
    match r.1 with
    | .EndFunc => .ok (.func name acc, r.2.2)
    | t => .error ("found invalid token: " ++ t.gostr)

/-- `parseIfStatement` body: discard `IF` then accumulate. -/
def ifStatementBody (prev : ParseFns) (p : Parser) : Except String (Stmt × Parser) :=
  let d := p.scan
  prev.ifLoop d.2.2 [] [] false

/-- The accumulation loop of `parseIfStatement`; `inElse` tells which body the
Go code's `body` pointer currently targets. -/
def ifLoopBody (prev : ParseFns) (p : Parser) (body elseBody : List Stmt) (inElse : Bool) :
    Except String (Stmt × Parser) :=
  match prev.common p with
  | .error e => .error e
  | .ok (some st, p') =>
    if inElse then prev.ifLoop p' body (elseBody ++ [st]) true
    else prev.ifLoop p' (body ++ [st]) elseBody false
  | .ok (none, p') =>
    let r := p'.scan
    match r.1 with
    | .Then => .ok (.ifStmt body elseBody, r.2.2)
    | .Else =>
      if inElse then .error "already in else"
      else prev.ifLoop r.2.2 body elseBody true
    | t => .error ("found invalid token: " ++ t.gostr)

/-- `parseWhileStatement` body: discard `WHILE` then accumulate to `REPEAT`. -/
def whileStatementBody (prev : ParseFns) (p : Parser) : Except String (Stmt × Parser) :=
  let d := p.scan
  prev.whileLoop d.2.2 []

/-- The accumulation loop of `parseWhileStatement`. -/
def whileLoopBody (prev : ParseFns) (p : Parser) (acc : List Stmt) :
    Except String (Stmt × Parser) :=
  match prev.common p with
  | .error e => .error e
  | .ok (some st, p') => prev.whileLoop p' (acc ++ [st])
  | .ok (none, p') =>
    let r := p'.scan
    match r.1 with
    | .Repeat => .ok (.whileStmt acc, r.2.2)
    | t => .error ("found invalid token: " ++ t.gostr)

/-- Tie the recursive knot: at fuel `n+1` every routine may take one parsing
step whose recursive continuations run at fuel `n`. -/
def parseFns : Nat → ParseFns
  | 0 => parseFnsZero
  | fuel + 1 =>
    let prev := parseFns fuel
    { program := programBody prev
      common := commonBody prev
      pfunc := funcBody prev
      funcLoop := funcLoopBody prev
      ifStatement := ifStatementBody prev
      ifLoop := ifLoopBody prev
      whileStatement := whileStatementBody prev
      whileLoop := whileLoopBody prev }

/-- `parseProgram`. -/
def parseProgram (fuel : Nat) : Parser → Except String (List Stmt × Parser) :=
  (parseFns fuel).program

/-- `parseCommon`. -/
def parseCommon (fuel : Nat) : Parser → Except String (Option Stmt × Parser) :=
  (parseFns fuel).common

/-- `Parser.Parse`: parse a whole program. -/
def Parse (fuel : Nat) (src : String) : Except String (List Stmt) :=
  match parseProgram fuel (NewParser src) with
  | .error e => .error e
  | .ok (sts, _) => .ok sts

/-! ## Runner: machine state -/

/-- A declared variable: name, declared cell count, and its backing cells. -/
structure Variable where
  Name : String
  Size : Int
  Data : List Int
deriving DecidableEq

/-- The machine. `Addresses` and `Functions` are Go maps used only for lookup
and fresh-key insertion, modelled as front-insertion association lists.
`StackNil` is a ghost field mirroring whether the Go `Stack` slice is `nil`:
it starts `true` and every `append` to the stack makes the slice (and so the
field) non-nil forever, while re-slicing keeps it unchanged; Go's JSON encoder
distinguishes a nil slice from a non-nil empty one. -/
structure Machine where
  Addresses : List (String × Int)
  Variables : List Variable
  Functions : List (String × List Stmt)
  Stack : List Int
  StackNil : Bool

/-- First-match association-list lookup (Go map read). -/
def lookupA {α : Type} : List (String × α) → String → Option α
  | [], _ => none
  | (k, v) :: rest, key => if k = key then some v else lookupA rest key

/-- `NewMachine`. -/
def NewMachine : Machine :=
  { Addresses := [], Variables := [], Functions := [], Stack := [], StackNil := true }

/-- Result of running Go code that may return an error (`err`), hit an
uncaught runtime panic (`fault`), or — only in this embedding — exhaust the
step fuel (`out`). -/
inductive ExecResult (α : Type) where
  | ok (a : α)
  | err (msg : String)
  | fault (msg : String)
  | out

/-- Propagate non-`ok` results. -/
def ExecResult.bind {α β : Type} : ExecResult α → (α → ExecResult β) → ExecResult β
  | .ok a, f => f a
  | .err e, _ => .err e
  | .fault e, _ => .fault e
  | .out, _ => .out

/-! ## Runner: symbol tables and address resolution -/

/-- `declareVariable`: reject name collisions, then assign the next base
address (previous variable's recorded address plus its size, 0 for the first)
and append the variable. -/
def Machine.declareVariable (m : Machine) (name : String) (cells : Int) :
    ExecResult Machine :=
  let v : Variable := ⟨name, cells, List.replicate cells.toNat 0⟩
  if (lookupA m.Addresses v.Name).isSome then
    .err ("cannot redeclare variable \"" ++ v.Name ++ "\"")
  else if (lookupA m.Functions v.Name).isSome then
    .err ("cannot declare variable \"" ++ v.Name ++ "\", function already exists with that name")
  else
    let addr : Int :=
      match m.Variables.getLast? with
      | none => 0
      | some lastVar => (lookupA m.Addresses lastVar.Name).getD 0 + lastVar.Size
    .ok { m with Addresses := (v.Name, addr) :: m.Addresses,
                 Variables := m.Variables ++ [v] }

/-- `function`: register a function body, rejecting name collisions. -/
def Machine.function (m : Machine) (name : String) (body : List Stmt) :
    ExecResult Machine :=
  if (lookupA m.Addresses name).isSome then
    .err ("cannot define function \"" ++ name ++ "\", variable with this name already exists")
  else if (lookupA m.Functions name).isSome then
    .err ("cannot redefine function \"" ++ name ++ "\"")
  else
    .ok { m with Functions := (name, body) :: m.Functions }

/-- `pushNumber`. -/
def Machine.pushNumber (m : Machine) (n : Int) : ExecResult Machine :=
  .ok { m with Stack := m.Stack ++ [n], StackNil := false }

/-- The `for _, v = range m.Variables` loop of `resolveVariable`: break at the
first variable whose range holds `addr`; with no break the loop leaves `v` as
the LAST variable and `caddr` as the total size. Returns the stopping
variable's list index, the variable, and the `caddr` at the stop. -/
def resolveLoop (addr : Int) : List Variable → Nat → Int → Option (Nat × Variable × Int)
  | [], _, _ => none
  | v :: rest, i, caddr =>
    if caddr ≤ addr ∧ addr < caddr + v.Size then some (i, v, caddr)
    else
      match rest with
      | [] => some (i, v, caddr + v.Size)
      | _ :: _ => resolveLoop addr rest (i + 1) (caddr + v.Size)

/-- `resolveVariable`: run the scan loop, then apply the Go post-loop check
`v == nil || addr < caddr || addr >= caddr+v.Size`; on success return the
variable's index, the variable, and the cell offset `addr - caddr`. -/
def Machine.resolveVariable (m : Machine) (addr : Int) :
    ExecResult (Nat × Variable × Int) :=
  match resolveLoop addr m.Variables 0 0 with
  | none => .err "could not resolve address"
  | some (i, v, caddr) =>
    if addr < caddr ∨ addr ≥ caddr + v.Size then .err "could not resolve address"
    else .ok (i, v, addr - caddr)

/-! ## Runner: stack and memory operations -/

/-- `mathOperation`: left operand below the top, right operand on top; Go's
division and modulus truncate toward zero and PANIC on a zero divisor, which
the embedding reports as a `fault`. A token outside the five-case switch
leaves the Go `res` variable at its zero value. -/
def Machine.mathOperation (m : Machine) (t : Token) : ExecResult Machine :=
  if m.Stack.length < 2 then
    .err "cannot perform math operation, stack does not have 2 items"
  else
    let op1 := m.Stack.getD (m.Stack.length - 2) 0
    let op2 := m.Stack.getD (m.Stack.length - 1) 0
    match t with
    | .Minus => .ok { m with Stack := m.Stack.take (m.Stack.length - 2) ++ [op1 - op2], StackNil := false }
    | .Plus => .ok { m with Stack := m.Stack.take (m.Stack.length - 2) ++ [op1 + op2], StackNil := false }
    | .Multiply => .ok { m with Stack := m.Stack.take (m.Stack.length - 2) ++ [op1 * op2], StackNil := false }
    | .Divide =>
      if op2 = 0 then .fault "runtime error: integer divide by zero"
      else .ok { m with Stack := m.Stack.take (m.Stack.length - 2) ++ [op1.tdiv op2], StackNil := false }
    | .Modulus =>
      if op2 = 0 then .fault "runtime error: integer divide by zero"
      else .ok { m with Stack := m.Stack.take (m.Stack.length - 2) ++ [op1.tmod op2], StackNil := false }
    | _ => .ok { m with Stack := m.Stack.take (m.Stack.length - 2) ++ [0], StackNil := false }

/-- `drop`. -/
def Machine.drop (m : Machine) : ExecResult Machine :=
  if m.Stack.length < 1 then .err "cannot drop, stack empty"
  else .ok { m with Stack := m.Stack.take (m.Stack.length - 1) }

/-- `dup`. -/
def Machine.dup (m : Machine) : ExecResult Machine :=
  if m.Stack.length < 1 then .err "cannot dup, stack empty"
  else .ok { m with Stack := m.Stack ++ [m.Stack.getD (m.Stack.length - 1) 0], StackNil := false }

/-- `swap`: exchange the two topmost entries in place. -/
def Machine.swap (m : Machine) : ExecResult Machine :=
  if m.Stack.length < 2 then
    .err "cannot perform swap operation, stack does not have 2 items"
  else
    let a := m.Stack.getD (m.Stack.length - 2) 0
    let b := m.Stack.getD (m.Stack.length - 1) 0
    .ok { m with Stack := (m.Stack.set (m.Stack.length - 2) b).set (m.Stack.length - 1) a }

/-- `compare`: left operand below the top; push 1 for true, else 0. A token
outside the five-case switch leaves the Go `res` at `false`. -/
def Machine.compare (m : Machine) (t : Token) : ExecResult Machine :=
  if m.Stack.length < 2 then
    .err "cannot perform compare operation, stack does not have 2 items"
  else
    let op1 := m.Stack.getD (m.Stack.length - 2) 0
    let op2 := m.Stack.getD (m.Stack.length - 1) 0
    let res : Bool :=
      match t with
      | .EQ => op1 = op2
      | .LT => op1 < op2
      | .GT => op1 > op2
      | .LTE => op1 ≤ op2
      | .GTE => op1 ≥ op2
      | _ => false
    .ok { m with Stack := m.Stack.take (m.Stack.length - 2) ++ [if res then 1 else 0],
                 StackNil := false }

/-- `get` (`@`): pop an address, resolve it, push the cell's value. (The Go
code's depth error message says "cannot perform if, stack empty".) -/
def Machine.get (m : Machine) : ExecResult Machine :=
  if m.Stack.length < 1 then .err "cannot perform if, stack empty"
  else
    let addr := m.Stack.getD (m.Stack.length - 1) 0
    (m.resolveVariable addr).bind fun r =>
      .ok { m with Stack := m.Stack.take (m.Stack.length - 1) ++ [r.2.1.Data.getD r.2.2.toNat 0],
                   StackNil := false }

/-- `store` (`!`): address on top, value below it; pop both and overwrite the
resolved cell. -/
def Machine.store (m : Machine) : ExecResult Machine :=
  if m.Stack.length < 2 then
    .err "cannot perform store operation, stack does not have 2 items"
  else
    let val := m.Stack.getD (m.Stack.length - 2) 0
    let addr := m.Stack.getD (m.Stack.length - 1) 0
    (m.resolveVariable addr).bind fun r =>
      .ok { m with
              Variables := m.Variables.set r.1 { r.2.1 with Data := r.2.1.Data.set r.2.2.toNat val },
              Stack := m.Stack.take (m.Stack.length - 2) }

/-- `debugComments`: only the error behaviour is semantically visible (the
diagnostics go to stderr): a `debug var` naming an unknown variable is fatal,
and address resolution of the named variable's base address may fail. -/
def Machine.debugComments (m : Machine) (body : String) : ExecResult Machine :=
  let parts := body.splitOn " "
  if parts.length < 2 ∨ parts.getD 0 "" ≠ "debug" then .ok m
  else
    match parts.getD 1 "" with
    | "stack" => .ok m
    | "var" =>
      if parts.length < 3 then .ok m
      else
        match lookupA m.Addresses (parts.getD 2 "") with
        | none => .err ("invalid variable " ++ parts.getD 2 "")
        | some addr => (m.resolveVariable addr).bind fun _ => .ok m
    | _ => .ok m

/-! ## Runner: the tree-walking executor -/

/-- Execute a statement list in order with the given single-statement
executor, stopping at the first non-`ok` (the shared `for _, st := range`
pattern of `exec`, `indentifierCall`, `_if` and `while`). -/
def execListWith (f : Machine → Stmt → ExecResult Machine) :
    Machine → List Stmt → ExecResult Machine
  | m, [] => .ok m
  | m, st :: rest => (f m st).bind fun m' => execListWith f m' rest

/-- `exec`: dispatch one statement against the machine. `QuitStatement`
returns nil — execution continues. The Go tree-walker recurses freely; the
embedding spends one fuel unit on every recursion into a statement list
(program, function body, if branch, while body) and on every while-loop
iteration, so any sufficiently large fuel reproduces the Go behaviour on
terminating executions. -/
def exec : Nat → Machine → Stmt → ExecResult Machine
  | 0, _, _ => .out
  | fuel + 1, m, st =>
    match st with
    | .prog sts => execListWith (exec fuel) m sts
    | .comment body => m.debugComments body
    | .decl name cells => m.declareVariable name cells
    | .func name body => m.function name body
    | .pushNumber n => m.pushNumber n
    | .identCall name =>
      match lookupA m.Addresses name with
      | some addr => .ok { m with Stack := m.Stack ++ [addr], StackNil := false }
      | none =>
        match lookupA m.Functions name with
        | some body => execListWith (exec fuel) m body
        | none => .err ("cannot resolve identifier \"" ++ name ++ "\"")
    | .mathOp t => m.mathOperation t
    | .drop => m.drop
    | .dup => m.dup
    | .swap => m.swap
    | .compareOp t => m.compare t
    | .get => m.get
    | .store => m.store
    | .ifStmt body elseBody =>
      if m.Stack.length < 1 then .err "cannot perform if, stack empty"
      else
        let val := m.Stack.getD (m.Stack.length - 1) 0
        let m' := { m with Stack := m.Stack.take (m.Stack.length - 1) }
        if val ≠ 0 then execListWith (exec fuel) m' body
        else if elseBody.length > 0 then execListWith (exec fuel) m' elseBody
        else .ok m'
    | .whileStmt body =>
      if m.Stack.length < 1 then .err "cannot perform while, stack empty"
      else
        let val := m.Stack.getD (m.Stack.length - 1) 0
        let m' := { m with Stack := m.Stack.take (m.Stack.length - 1) }
        if val = 0 then .ok m'
        else (execListWith (exec fuel) m' body).bind fun m'' =>
          exec fuel m'' (.whileStmt body)
    | .quit => .ok m

/-- Execute a statement list at a given fuel level. -/
def execList (fuel : Nat) : Machine → List Stmt → ExecResult Machine :=
  execListWith (exec fuel)

/-- Parse then execute on a fresh machine (the core of `main`). -/
def runWith (fuel : Nat) (src : String) : ExecResult Machine :=
  match Parse fuel src with
  | .error e => .err e
  | .ok sts => exec fuel NewMachine (.prog sts)

/-- The final stack of a successful run. -/
def ExecResult.stackOf : ExecResult Machine → Option (List Int)
  | .ok m => some m.Stack
  | _ => none

/-- Modelled from Go's `encoding/json` (an external collaborator of this
repository): an integer slice encodes as `[n1,n2,...]` in order — except that
a NIL slice encodes as `null`; `Encoder.Encode` appends a newline. -/
def goJsonStack (m : Machine) : String :=
  if m.StackNil then "null\n"
  else "[" ++ (String.intercalate "," (m.Stack.map toString) ++ "]\n")

/-- A JSON array of integers necessarily begins with the character `[`;
`null` does not. -/
def startsWithBracket (s : String) : Bool := s.data.getD 0 ' ' == '['


/-- `main`: parse, execute, and on success write the JSON-encoded stack to
standard output; any failure is fatal with a diagnostic instead. -/
def mainRun (fuel : Nat) (src : String) : Except String String :=
  match runWith fuel src with
  | .ok m => .ok (goJsonStack m)
  | .err e => .error e
  | .fault e => .error e
  | .out => .error "fuel exhausted"

/-! ## Derived notions used by the theorems -/

instance : Inhabited Variable := ⟨⟨"", 0, []⟩⟩

/-- Total size of the declared address space: the sum of all cell counts, in
declaration order (the value the resolve loop's `caddr` reaches when it never
breaks). -/
def sumSizes : List Variable → Int
  | [] => 0
  | v :: rest => v.Size + sumSizes rest

/-- The base address of the `i`-th declared variable: the sum of the cell
counts of the variables declared strictly before it. -/
def baseOf (vars : List Variable) (i : Nat) : Int :=
  sumSizes (vars.take i)

/-- Run a sequence of variable declarations (name, cell count). -/
def declsRun (m : Machine) : List (String × Int) → ExecResult Machine
  | [] => .ok m
  | d :: rest => (m.declareVariable d.1 d.2).bind fun m' => declsRun m' rest

/-- Well-formedness of the variable list that the Go runtime maintains by
construction: sizes are nonnegative and each variable's backing slice has
exactly `Size` cells (`make([]int, cells)`). -/
def VarsWF (vars : List Variable) : Prop :=
  ∀ v ∈ vars, 0 ≤ v.Size ∧ v.Data.length = v.Size.toNat

/-- Structural invariants of the parser state that `NewParser` establishes and
`scan`/`unscan` preserve: the ring buffer has its fixed 100 slots and both
cursors are in range. -/
def ParserWF (p : Parser) : Prop :=
  p.buf.length = 100 ∧ p.actual < 100 ∧ p.latest < 100

/-- The machine reached by `VARIABLE x  7 0 !` : one variable `x` of one cell
holding 7. -/
def c1Machine : Machine :=
  { Addresses := [("x", 0)], Variables := [⟨"x", 1, [7]⟩], Functions := [],
    Stack := [1], StackNil := false }

/-- The address-table invariant: every declared variable's recorded address is
the sum of the cell counts of the variables declared strictly before it. -/
def AddrInv (m : Machine) : Prop :=
  ∀ i, i < m.Variables.length →
    lookupA m.Addresses ((m.Variables.getD i default).Name) = some (baseOf m.Variables i)

/-! ## Lexer lemmas -/

theorem length_dropWhile_le (p : Char → Bool) (l : List Char) :
    (l.dropWhile p).length ≤ l.length :=
  (List.dropWhile_suffix p).sublist.length_le

theorem commentTake_length (l : List Char) : (commentTake l).2.length ≤ l.length := by
  induction l with
  | nil => simp [commentTake]
  | cons c rest ih =>
    unfold commentTake
    split
    · simp
    · simpa using Nat.le_succ_of_le ih

theorem scanComparator_length (ch : Char) (rest : List Char) :
    (scanComparator (ch :: rest)).2.2.length ≤ rest.length := by
  unfold scanComparator
  dsimp only
  split
  · simp
  · rcases rest with _ | ⟨next, rest'⟩
    · dsimp only
      split <;> simp
    · dsimp only
      split <;> split <;> simp

/-- Every `Scan` branch on a nonempty input consumes at least the first rune. -/
theorem scan_rest_length (ch : Char) (rest : List Char) :
    (Scan (ch :: rest)).2.2.length ≤ rest.length := by
  unfold Scan
  dsimp only
  split_ifs with hws hd hm hl hp
  · simpa [scanWhitespace] using length_dropWhile_le _ _
  · simpa [scanNumber] using length_dropWhile_le _ _
  · rcases rest with _ | ⟨next, rest'⟩
    · simp
    · dsimp only
      split
      · simpa [scanNumber] using length_dropWhile_le _ _
      · simp
  · simpa [scanIdent] using length_dropWhile_le _ _
  · simpa [scanComment] using commentTake_length rest
  · split <;> first
      | simp
      | exact scanComparator_length _ _

/-- `Scan` never returns `WS` without consuming input. -/
theorem scan_ws_length {s r : List Char} {l : String}
    (h : Scan s = (.WS, l, r)) : r.length < s.length := by
  rcases s with _ | ⟨ch, rest⟩
  · exact absurd h (by simp [Scan])
  · have hle := scan_rest_length ch rest
    rw [h] at hle
    simp only [List.length_cons]
    exact Nat.lt_succ_of_le hle


/-! ## Helper lemmas about the stack representation

The Go code addresses the two topmost stack slots as `Stack[len-2]` and
`Stack[len-1]` and truncates with `Stack[:len-2]`; with the stack stored as
`rest ++ [a, b]` these are `a`, `b` and `rest`. -/

theorem stack_len2 (l : List Int) (a b : Int) : (l ++ [a, b]).length = l.length + 2 := by
  simp

theorem stack_getD_sub2 (l : List Int) (a b : Int) :
    (l ++ [a, b]).getD ((l ++ [a, b]).length - 2) 0 = a := by
  rw [stack_len2, Nat.add_sub_cancel, List.getD_append_right _ _ _ _ (Nat.le_refl _)]
  simp

theorem stack_getD_sub1 (l : List Int) (a b : Int) :
    (l ++ [a, b]).getD ((l ++ [a, b]).length - 1) 0 = b := by
  rw [stack_len2]
  have : l.length + 2 - 1 = l.length + 1 := rfl
  rw [this, List.getD_append_right _ _ _ _ (Nat.le_add_right _ _)]
  simp

theorem stack_take_sub2 (l : List Int) (a b : Int) :
    (l ++ [a, b]).take ((l ++ [a, b]).length - 2) = l := by
  rw [stack_len2, Nat.add_sub_cancel]
  exact List.take_left l [a, b]

theorem stack_getD_last (l : List Int) (a : Int) :
    (l ++ [a]).getD ((l ++ [a]).length - 1) 0 = a := by
  simp only [List.length_append, List.length_cons, List.length_nil, Nat.add_sub_cancel]
  rw [List.getD_append_right _ _ _ _ (Nat.le_refl _)]
  simp

theorem stack_take_sub1 (l : List Int) (a : Int) :
    (l ++ [a]).take ((l ++ [a]).length - 1) = l := by
  simp only [List.length_append, List.length_cons, List.length_nil, Nat.add_sub_cancel]
  exact List.take_left l [a]

/-! ## Claim C1 -/

/-- C1: the claim states that any popped address at or beyond the end of all
declared regions fails with "could not resolve address" and no cell is read.
The code violates this: with a single declared variable `x` of 1 cell (total
size 1), the out-of-range address 1 RESOLVES — the `for _, v = range` loop
leaves `v` pointing at the last variable and `caddr` at the total size, and
the post-loop range check then accepts any `addr` in `[total, total+lastSize)`
— so `Get` reads `x`'s cell 0 (value 7), and the full program
`VARIABLE x  7 0 !  1 @` runs successfully to stack `[7]` instead of failing. -/
theorem c1_out_of_range_address_resolves :
    c1Machine.resolveVariable 1 = .ok (0, ⟨"x", 1, [7]⟩, 0)
    ∧ c1Machine.get = .ok { c1Machine with Stack := [7], StackNil := false }
    ∧ (runWith 50 "VARIABLE x  7 0 !  1 @").stackOf = some [7] :=
  ⟨rfl, rfl, rfl⟩

/-! ## Claim C2 -/

/-- C2 counterexample: the claim (and the spec's first example scenario) says
`VARIABLE x 3 5 x ! 3 x @` ends with stack `[3, 5]`; in fact the declaration's
two-token lookahead sees `NUMBER(3) NUMBER(5)` — not `NUMBER CELLS` — so both
are pushed back and executed as pushes, and the run ends with `[3, 3, 5]`. -/
theorem c2_counterexample :
    (runWith 50 "VARIABLE x 3 5 x ! 3 x @").stackOf = some [3, 3, 5]
    ∧ (some [3, 3, 5] : Option (List Int)) ≠ some [3, 5] :=
  ⟨rfl, by decide⟩

/-- C2 amended: parsing and executing `VARIABLE x 3 5 x ! 3 x @` on a fresh
machine succeeds and ends with the evaluation stack `[3, 3, 5]` bottom-to-top
(the `3` is not consumed by the declaration: `3 5` is pushed back since the
`CELLS` keyword is absent, then `3`, `5` are pushed, `x !` stores 5 in cell 0,
and `3 x @` pushes 3 and then the cell's value 5). -/
theorem c2_amended :
    (runWith 50 "VARIABLE x 3 5 x ! 3 x @").stackOf = some [3, 3, 5] := rfl

/-! ## Claim C5 -/

/-- C5: on any stack holding at least two values — written `rest ++ [a, b]`
with `b` on top — each math operation pops both operands and pushes the single
result `a ⊙ b` (left operand below the top), leaving `rest` unchanged;
division and modulus require a nonzero divisor (see C6). Go's `/` and `%`
truncate toward zero (`Int.tdiv`/`Int.tmod`). In particular `5 3 -` ends with
stack `[2]`. -/
theorem c5_math_operations (m : Machine) (rest : List Int) (a b : Int)
    (hs : m.Stack = rest ++ [a, b]) :
    m.mathOperation .Plus = .ok { m with Stack := rest ++ [a + b], StackNil := false }
    ∧ m.mathOperation .Minus = .ok { m with Stack := rest ++ [a - b], StackNil := false }
    ∧ m.mathOperation .Multiply = .ok { m with Stack := rest ++ [a * b], StackNil := false }
    ∧ (b ≠ 0 →
        m.mathOperation .Divide = .ok { m with Stack := rest ++ [a.tdiv b], StackNil := false })
    ∧ (b ≠ 0 →
        m.mathOperation .Modulus = .ok { m with Stack := rest ++ [a.tmod b], StackNil := false })
    ∧ (runWith 50 "5 3 -").stackOf = some [2] := by
  have hlen : ¬ (rest ++ [a, b]).length < 2 := by rw [stack_len2]; omega
  refine ⟨?_, ?_, ?_, ?_, ?_, rfl⟩
  · simp only [Machine.mathOperation, hs, if_neg hlen,
      stack_getD_sub2, stack_getD_sub1, stack_take_sub2]
  · simp only [Machine.mathOperation, hs, if_neg hlen,
      stack_getD_sub2, stack_getD_sub1, stack_take_sub2]
  · simp only [Machine.mathOperation, hs, if_neg hlen,
      stack_getD_sub2, stack_getD_sub1, stack_take_sub2]
  · intro hb
    simp only [Machine.mathOperation, hs, if_neg hlen,
      stack_getD_sub2, stack_getD_sub1, stack_take_sub2, if_neg hb]
  · intro hb
    simp only [Machine.mathOperation, hs, if_neg hlen,
      stack_getD_sub2, stack_getD_sub1, stack_take_sub2, if_neg hb]

/-- C5 witness: `10 3` with `-` on a concrete machine. -/
theorem c5_witness :
    (NewMachine.mathOperation .Minus = .err "cannot perform math operation, stack does not have 2 items")
    ∧ ({ NewMachine with Stack := [10, 3], StackNil := false } : Machine).mathOperation .Minus
        = .ok { NewMachine with Stack := [7], StackNil := false } := by
  refine ⟨rfl, ?_⟩
  have h := (c5_math_operations { NewMachine with Stack := [10, 3], StackNil := false }
    [] 10 3 rfl).2.1
  simpa using h

/-! ## Claim C6 -/

/-- C6: executing `/` or `MOD` with 0 on top of the stack is the unguarded Go
runtime panic `integer divide by zero`, modelled as a `fault`: not a normal
result and not a language-level error return, with no clamping or divisor
guard before the division; a whole run such as `1 0 /` dies with that fault. -/
theorem c6_divide_by_zero_is_fault (m : Machine) (rest : List Int) (a : Int)
    (hs : m.Stack = rest ++ [a, 0]) :
    m.mathOperation .Divide = .fault "runtime error: integer divide by zero"
    ∧ m.mathOperation .Modulus = .fault "runtime error: integer divide by zero"
    ∧ (∀ m' : Machine, m.mathOperation .Divide ≠ .ok m')
    ∧ (∀ e : String, m.mathOperation .Divide ≠ .err e)
    ∧ (∀ m' : Machine, m.mathOperation .Modulus ≠ .ok m')
    ∧ (∀ e : String, m.mathOperation .Modulus ≠ .err e)
    ∧ runWith 50 "1 0 /" = .fault "runtime error: integer divide by zero" := by
  have hlen : ¬ (rest ++ [a, 0]).length < 2 := by rw [stack_len2]; omega
  have hdiv : m.mathOperation .Divide = .fault "runtime error: integer divide by zero" := by
    simp only [Machine.mathOperation, hs, if_neg hlen, stack_getD_sub1, stack_getD_sub2]
    simp
  have hmod : m.mathOperation .Modulus = .fault "runtime error: integer divide by zero" := by
    simp only [Machine.mathOperation, hs, if_neg hlen, stack_getD_sub1, stack_getD_sub2]
    simp
  refine ⟨hdiv, hmod, ?_, ?_, ?_, ?_, rfl⟩ <;> intro x <;> simp [hdiv, hmod]

/-- C6 witness at the stack `[1, 0]`. -/
theorem c6_witness :
    ({ NewMachine with Stack := [1, 0], StackNil := false } : Machine).mathOperation .Divide
      = .fault "runtime error: integer divide by zero" :=
  (c6_divide_by_zero_is_fault { NewMachine with Stack := [1, 0], StackNil := false }
    [] 1 rfl).1

/-! ## Claim C7 -/

/-- C7: every stack-consuming operation checks its minimum depth FIRST and
returns a descriptive error when the stack is too shallow (`Drop`, `Dup`,
`Get`, `If` and the `While` condition check need depth ≥ 1; math, compare,
`Swap` and `Store` need depth ≥ 2). The error result carries no machine: in
this embedding an erroring operation returns no successor state at all, so the
stack and the variable storage are untouched by the failing operation (and
`exec` aborts the run with that error). -/
theorem c7_depth_preconditions (m : Machine) :
    (m.Stack.length < 1 →
      m.drop = .err "cannot drop, stack empty"
      ∧ m.dup = .err "cannot dup, stack empty"
      ∧ m.get = .err "cannot perform if, stack empty"
      ∧ (∀ fuel body elseBody,
          exec (fuel + 1) m (.ifStmt body elseBody) = .err "cannot perform if, stack empty")
      ∧ (∀ fuel body,
          exec (fuel + 1) m (.whileStmt body) = .err "cannot perform while, stack empty"))
    ∧ (m.Stack.length < 2 →
      (∀ t, m.mathOperation t = .err "cannot perform math operation, stack does not have 2 items")
      ∧ (∀ t, m.compare t = .err "cannot perform compare operation, stack does not have 2 items")
      ∧ m.swap = .err "cannot perform swap operation, stack does not have 2 items"
      ∧ m.store = .err "cannot perform store operation, stack does not have 2 items") := by
  constructor
  · intro h1
    refine ⟨?_, ?_, ?_, ?_, ?_⟩
    · simp [Machine.drop, h1]
    · simp [Machine.dup, h1]
    · simp [Machine.get, h1]
    · intro fuel body elseBody
      simp [exec, h1]
    · intro fuel body
      simp [exec, h1]
  · intro h2
    refine ⟨?_, ?_, ?_, ?_⟩
    · intro t
      simp [Machine.mathOperation, h2]
    · intro t
      simp [Machine.compare, h2]
    · simp [Machine.swap, h2]
    · simp [Machine.store, h2]

/-- C7 witness on the empty fresh machine and a depth-1 stack. -/
theorem c7_witness :
    (NewMachine.drop = .err "cannot drop, stack empty")
    ∧ (({ NewMachine with Stack := [4], StackNil := false } : Machine).store
        = .err "cannot perform store operation, stack does not have 2 items") :=
  ⟨((c7_depth_preconditions NewMachine).1 (by decide)).1,
   ((c7_depth_preconditions { NewMachine with Stack := [4], StackNil := false }).2
      (by decide)).2.2.2⟩

/-! ## Claim C9 -/

theorem startsWithBracket_append (t : String) : startsWithBracket ("[" ++ t) = true := by
  have h : ("[" ++ t).data = '[' :: t.data := rfl
  simp [startsWithBracket, h]

/-- C9 counterexample: the claim says every successful run writes the final
stack as a JSON array, including the empty one. But the Go stack slice starts
out nil and only `append` makes it non-nil, and `encoding/json` encodes a nil
slice as `null`: the empty program succeeds with a never-touched stack and the
process writes `null` — not a JSON array (its output does not begin with `[`). -/
theorem c9_counterexample :
    mainRun 50 "" = .ok "null\n" ∧ startsWithBracket "null\n" = false :=
  ⟨rfl, by decide⟩

/-- C9 amended: on every successful run the process writes the JSON
serialization of the final stack: a JSON array of integers in bottom-to-top
order whenever a value was ever pushed during execution (non-nil slice), while
a run that never pushed writes `null`. An emptied-but-once-pushed stack is a
non-nil empty slice and yields the JSON array `[]`, e.g. for `1 DROP`. -/
theorem c9_amended (fuel : Nat) (src : String) (m : Machine)
    (h : runWith fuel src = .ok m) (hn : m.StackNil = false) :
    mainRun fuel src = .ok ("[" ++ (String.intercalate "," (m.Stack.map toString) ++ "]\n"))
    ∧ startsWithBracket (goJsonStack m) = true
    ∧ mainRun 50 "1 DROP" = .ok "[]\n" := by
  refine ⟨?_, ?_, rfl⟩
  · simp [mainRun, h, goJsonStack, hn]
  · rw [goJsonStack, hn]
    simp only [Bool.false_eq_true, if_false]
    exact startsWithBracket_append _

/-- C9 witness: the run `3 5` ends with the non-nil stack `[3, 5]` and prints
`[3,5]`. -/
theorem c9_witness :
    mainRun 50 "3 5" = .ok "[3,5]\n" := by
  have h := (c9_amended 50 "3 5" { NewMachine with Stack := [3, 5], StackNil := false }
    rfl rfl).1
  simpa using h

/-! ## Claim C10 -/

/-- C10: parse-then-execute is deterministic — the embedded pipeline is a pure
function of the program text (the Go code reads only the program text, never
iterates a map, and uses no concurrency or other nondeterminism), so two runs
of the same text at the same step bound agree on everything: same error, or
same final machine (stack, variable list with cell contents, and address
assignments are all `Machine` fields). -/
theorem c10_deterministic (fuel : Nat) (src : String) (r₁ r₂ : ExecResult Machine)
    (h₁ : runWith fuel src = r₁) (h₂ : runWith fuel src = r₂) : r₁ = r₂ := by
  rw [← h₁, ← h₂]

/-- C10 witness: two runs of `5 3 -` at the same fuel coincide. -/
theorem c10_witness :
    runWith 50 "5 3 -" = runWith 50 "5 3 -" :=
  c10_deterministic 50 "5 3 -" (runWith 50 "5 3 -") (runWith 50 "5 3 -") rfl rfl

/-! ## Address-arithmetic lemmas (claim C3) -/

theorem sumSizes_append (l : List Variable) (v : Variable) :
    sumSizes (l ++ [v]) = sumSizes l + v.Size := by
  induction l with
  | nil => simp [sumSizes]
  | cons w rest ih =>
    simp only [List.cons_append, sumSizes, List.append_eq, ih]
    ring

theorem baseOf_append (l : List Variable) (v : Variable) (i : Nat) (h : i ≤ l.length) :
    baseOf (l ++ [v]) i = baseOf l i := by
  unfold baseOf
  rw [List.take_append_of_le_length h]

theorem baseOf_len (l : List Variable) (v : Variable) :
    baseOf (l ++ [v]) l.length = sumSizes l := by
  unfold baseOf
  rw [List.take_append_of_le_length (Nat.le_refl _), List.take_length]

theorem baseOf_succ (l : List Variable) (i : Nat) (h : i < l.length) :
    baseOf l (i + 1) = baseOf l i + (l.getD i default).Size := by
  unfold baseOf
  rw [List.take_succ, List.getElem?_eq_getElem h]
  simp only [Option.toList_some]
  rw [sumSizes_append, List.getD_eq_getElem l default h]

theorem baseOf_length (l : List Variable) : baseOf l l.length = sumSizes l := by
  unfold baseOf
  rw [List.take_length]

theorem baseOf_mono (l : List Variable) (hpos : ∀ v ∈ l, 0 ≤ v.Size) :
    ∀ j, j ≤ l.length → ∀ i, i ≤ j → baseOf l i ≤ baseOf l j := by
  intro j
  induction j with
  | zero =>
    intro _ i hi
    interval_cases i
    exact le_refl _
  | succ j ih =>
    intro hj i hi
    rcases Nat.eq_or_lt_of_le hi with heq | hlt
    · rw [heq]
    · have h1 : baseOf l i ≤ baseOf l j := ih (by omega) i (by omega)
      have h2 : 0 ≤ (l.getD j default).Size := by
        have hj' : j < l.length := by omega
        have := hpos (l.getD j default) (by
          rw [List.getD_eq_getElem l default hj']
          exact List.getElem_mem hj')
        exact this
      rw [baseOf_succ l j (by omega)]
      omega

/-- The Go base-address computation (`m.Addresses[lastVar.Name]+lastVar.Size`,
or 0 with no variables) equals the total declared size, given the invariant. -/
theorem declare_addr_eq (m : Machine) (hinv : AddrInv m) :
    (match m.Variables.getLast? with
     | none => (0 : Int)
     | some lastVar => (lookupA m.Addresses lastVar.Name).getD 0 + lastVar.Size)
      = sumSizes m.Variables := by
  cases hl : m.Variables.getLast? with
  | none =>
    rw [List.getLast?_eq_none_iff.mp hl]
    rfl
  | some lastVar =>
    dsimp only
    have hne : m.Variables ≠ [] := by
      intro h
      rw [h] at hl
      simp at hl
    have hlen : 0 < m.Variables.length := List.length_pos.mpr hne
    have hgd : m.Variables.getD (m.Variables.length - 1) default = lastVar := by
      rw [List.getD_eq_getElem _ _ (by omega)]
      rw [List.getLast?_eq_getElem?, List.getElem?_eq_getElem (by omega)] at hl
      exact (Option.some.injEq _ _ ▸ hl)
    have hlook := hinv (m.Variables.length - 1) (by omega)
    rw [hgd] at hlook
    rw [hlook]
    have hsucc := baseOf_succ m.Variables (m.Variables.length - 1) (by omega)
    rw [hgd] at hsucc
    have heq : m.Variables.length - 1 + 1 = m.Variables.length := by omega
    rw [heq] at hsucc
    rw [baseOf_length] at hsucc
    simp only [Option.getD_some]
    omega

/-- One successful declaration appends the new variable and preserves the
address-table invariant, recording exactly the running total as its address. -/
theorem declareVariable_step (m : Machine) (name : String) (cells : Int) (m' : Machine)
    (hinv : AddrInv m) (h : m.declareVariable name cells = .ok m') :
    m'.Variables = m.Variables ++ [⟨name, cells, List.replicate cells.toNat 0⟩]
    ∧ m'.Addresses = (name, sumSizes m.Variables) :: m.Addresses
    ∧ AddrInv m' := by
  unfold Machine.declareVariable at h
  dsimp only at h
  cases hA : lookupA m.Addresses name with
  | some a =>
    rw [hA] at h
    simp at h
  | none =>
    rw [hA] at h
    cases hF : lookupA m.Functions name with
    | some f =>
      rw [hF] at h
      simp at h
    | none =>
      rw [hF] at h
      simp only [Option.isSome_none, Bool.false_eq_true, if_false] at h
      rw [ExecResult.ok.injEq] at h
      have haddr := declare_addr_eq m hinv
      subst h
      refine ⟨rfl, by rw [haddr], ?_⟩
      intro i hi
      simp only [List.length_append, List.length_cons, List.length_nil] at hi
      by_cases hilt : i < m.Variables.length
      · have hgd : (m.Variables ++ [(⟨name, cells, List.replicate cells.toNat 0⟩ : Variable)]).getD i default
            = m.Variables.getD i default := List.getD_append _ _ _ _ hilt
        simp only [hgd]
        have hold := hinv i hilt
        have hne : name ≠ (m.Variables.getD i default).Name := by
          intro he
          rw [← he] at hold
          rw [hA] at hold
          cases hold
        simp only [lookupA, if_neg hne]
        rw [hold, baseOf_append _ _ _ (Nat.le_of_lt hilt)]
      · have hieq : i = m.Variables.length := by omega
        subst hieq
        have hgd : (m.Variables ++ [(⟨name, cells, List.replicate cells.toNat 0⟩ : Variable)]).getD
            m.Variables.length default = ⟨name, cells, List.replicate cells.toNat 0⟩ := by
          rw [List.getD_append_right _ _ _ _ (Nat.le_refl _)]
          simp
        simp only [hgd, lookupA, baseOf_len]
        rw [haddr]
        simp

/-- Folding successful declarations from any invariant-respecting machine
appends exactly the declared variables and preserves the invariant. -/
theorem declsRun_inv (ds : List (String × Int)) :
    ∀ m m', AddrInv m → declsRun m ds = .ok m' →
      AddrInv m'
      ∧ m'.Variables
          = m.Variables ++ ds.map (fun d => ⟨d.1, d.2, List.replicate d.2.toNat 0⟩) := by
  induction ds with
  | nil =>
    intro m m' hinv h
    simp only [declsRun] at h
    rw [ExecResult.ok.injEq] at h
    subst h
    exact ⟨hinv, by simp⟩
  | cons d rest ih =>
    intro m m' hinv h
    simp only [declsRun] at h
    cases hd : m.declareVariable d.1 d.2 with
    | ok m1 =>
      rw [hd] at h
      simp only [ExecResult.bind] at h
      obtain ⟨hvars, -, hinv1⟩ := declareVariable_step m d.1 d.2 m1 hinv hd
      obtain ⟨hinv', hv'⟩ := ih m1 m' hinv1 h
      refine ⟨hinv', ?_⟩
      rw [hv', hvars]
      simp
    | err e => rw [hd] at h; simp [ExecResult.bind] at h
    | fault e => rw [hd] at h; simp [ExecResult.bind] at h
    | out => rw [hd] at h; simp [ExecResult.bind] at h

/-- C3: after any sequence of successful declarations on a fresh machine (with
the positive cell counts the parser guarantees), every variable's recorded
address equals the sum of the cell counts of the variables declared strictly
before it (`baseOf`, so the first variable gets 0), the sizes are exactly the
declared cell counts in order, consecutive ranges are contiguous
(`base(i+1) = base(i) + size(i)`), and the ranges `[base, base+cells)` of
distinct variables never overlap. -/
theorem c3_declaration_addresses (ds : List (String × Int)) (m : Machine)
    (h : declsRun NewMachine ds = .ok m) (hpos : ∀ d ∈ ds, 0 < d.2) :
    (∀ i, i < m.Variables.length →
      lookupA m.Addresses ((m.Variables.getD i default).Name)
        = some (baseOf m.Variables i))
    ∧ m.Variables.map (fun v => v.Size) = ds.map (fun d => d.2)
    ∧ (∀ i, i + 1 < m.Variables.length →
        baseOf m.Variables (i + 1) = baseOf m.Variables i + (m.Variables.getD i default).Size)
    ∧ (∀ i j x, i < j → j < m.Variables.length →
        baseOf m.Variables i ≤ x ∧ x < baseOf m.Variables i + (m.Variables.getD i default).Size →
        ¬(baseOf m.Variables j ≤ x ∧ x < baseOf m.Variables j + (m.Variables.getD j default).Size)) := by
  have hinv0 : AddrInv NewMachine := by
    intro i hi
    simp [NewMachine] at hi
  obtain ⟨hinv, hvars⟩ := declsRun_inv ds NewMachine m hinv0 h
  have hsizes : m.Variables.map (fun v => v.Size) = ds.map (fun d => d.2) := by
    rw [hvars]
    simp [NewMachine]
  have hposv : ∀ v ∈ m.Variables, 0 ≤ v.Size := by
    intro v hv
    rw [hvars] at hv
    simp only [NewMachine, List.nil_append, List.mem_map] at hv
    obtain ⟨d, hd, rfl⟩ := hv
    exact le_of_lt (hpos d hd)
  refine ⟨hinv, hsizes, ?_, ?_⟩
  · intro i hi
    exact baseOf_succ m.Variables i (by omega)
  · intro i j x hij hj ⟨hxi1, hxi2⟩ ⟨hxj1, hxj2⟩
    have hstep : baseOf m.Variables (i + 1)
        = baseOf m.Variables i + (m.Variables.getD i default).Size :=
      baseOf_succ m.Variables i (by omega)
    have hmono : baseOf m.Variables (i + 1) ≤ baseOf m.Variables j :=
      baseOf_mono m.Variables hposv j (by omega) (i + 1) (by omega)
    omega

/-- C3 witness: declaring `x` with 1 cell then `y` with 2 cells gives `x`
address 0 and `y` address 1 (= x's cell count), with sizes `[1, 2]`. -/
theorem c3_witness :
    lookupA [("y", (1 : Int)), ("x", 0)] "y"
      = some (baseOf [⟨"x", 1, [0]⟩, ⟨"y", 2, [0, 0]⟩] 1) := by
  have h := (c3_declaration_addresses [("x", 1), ("y", 2)]
    { Addresses := [("y", 1), ("x", 0)],
      Variables := [⟨"x", 1, [0]⟩, ⟨"y", 2, [0, 0]⟩],
      Functions := [], Stack := [], StackNil := true }
    rfl (by decide)).1 1 (by decide)
  simpa using h

/-! ## Address-resolution lemmas (claim C4) -/

theorem set_getD_same {α : Type} [Inhabited α] :
    ∀ (l : List α) (j : Nat), l.set j (l.getD j default) = l := by
  intro l
  induction l with
  | nil => intro j; rfl
  | cons x xs ih =>
    intro j
    cases j with
    | zero => rfl
    | succ j => simpa [List.set] using ih j

theorem getD_set_self {α : Type} (l : List α) (j : Nat) (a d : α) (h : j < l.length) :
    (l.set j a).getD j d = a := by
  rw [List.getD_eq_getElem _ _ (by simpa using h)]
  exact List.getElem_set_self (by simpa using h)

theorem getD_set_ne {α : Type} (l : List α) (nj k : Nat) (a d : α) (h : nj ≠ k) :
    (l.set nj a).getD k d = l.getD k d := by
  rw [List.getD_eq_getD_get?, List.getD_eq_getD_get?, List.get?_eq_getElem?,
    List.get?_eq_getElem?, List.getElem?_set_ne h]

theorem sumSizes_eq_map_sum (l : List Variable) :
    sumSizes l = (l.map (fun v => v.Size)).sum := by
  induction l with
  | nil => rfl
  | cons v rest ih => simp [sumSizes, ih]

theorem sumSizes_congr (l l' : List Variable)
    (h : l.map (fun v => v.Size) = l'.map (fun v => v.Size)) :
    sumSizes l = sumSizes l' := by
  rw [sumSizes_eq_map_sum, sumSizes_eq_map_sum, h]

theorem baseOf_congr (l l' : List Variable)
    (h : l.map (fun v => v.Size) = l'.map (fun v => v.Size)) (k : Nat) :
    baseOf l k = baseOf l' k := by
  unfold baseOf
  apply sumSizes_congr
  rw [List.map_take, List.map_take, h]

/-- The range loop finds the first variable whose range `[base, base+size)`
holds the address, when the address is inside the declared space. -/
theorem resolveLoop_found (addr : Int) :
    ∀ (vars : List Variable) (i0 : Nat) (c0 : Int),
      (∀ v ∈ vars, 0 ≤ v.Size) → c0 ≤ addr → addr < c0 + sumSizes vars →
      ∃ j, j < vars.length ∧
        resolveLoop addr vars i0 c0
          = some (i0 + j, vars.getD j default, c0 + sumSizes (vars.take j))
        ∧ c0 + sumSizes (vars.take j) ≤ addr
        ∧ addr < c0 + sumSizes (vars.take j) + (vars.getD j default).Size := by
  intro vars
  induction vars with
  | nil =>
    intro i0 c0 _ h1 h2
    exfalso
    simp only [sumSizes] at h2
    omega
  | cons v rest ih =>
    intro i0 c0 hpos h1 h2
    by_cases hbreak : c0 ≤ addr ∧ addr < c0 + v.Size
    · refine ⟨0, by simp, ?_, ?_, ?_⟩
      · unfold resolveLoop
        rw [if_pos hbreak]
        simp [sumSizes]
      · simpa [sumSizes] using h1
      · simpa [sumSizes] using hbreak.2
    · have hge : c0 + v.Size ≤ addr := by
        rcases not_and_or.mp hbreak with hc | hc
        · omega
        · omega
      cases rest with
      | nil =>
        exfalso
        simp only [sumSizes] at h2
        omega
      | cons w ws =>
        have hpos' : ∀ u ∈ w :: ws, 0 ≤ u.Size := fun u hu =>
          hpos u (List.mem_cons_of_mem _ hu)
        have h2' : addr < c0 + v.Size + sumSizes (w :: ws) := by
          simp only [sumSizes] at h2 ⊢
          omega
        obtain ⟨j, hj, heq, hle, hlt⟩ := ih (i0 + 1) (c0 + v.Size) hpos' hge h2'
        refine ⟨j + 1, by simpa using Nat.succ_lt_succ hj, ?_, ?_, ?_⟩
        · unfold resolveLoop
          rw [if_neg hbreak]
          dsimp only
          rw [heq]
          refine congrArg some ?_
          simp only [Prod.mk.injEq]
          refine ⟨by omega, by simp, ?_⟩
          rw [List.take_succ_cons]
          simp only [sumSizes]
          ring
        · rw [List.take_succ_cons]
          simp only [sumSizes]
          omega
        · rw [List.take_succ_cons]
          simp only [List.getD_cons_succ, sumSizes]
          omega

/-- `resolveVariable` depends only on the `Variables` field. -/
theorem resolveVariable_stack_irrel (m : Machine) (s : List Int) (b : Bool) (addr : Int) :
    Machine.resolveVariable { m with Stack := s, StackNil := b } addr
      = m.resolveVariable addr := rfl

/-- An in-range address resolves to the unique variable whose range holds it,
with the offset `addr - base`. -/
theorem resolveVariable_in_range (m : Machine) (addr : Int)
    (hpos : ∀ v ∈ m.Variables, 0 ≤ v.Size) (h0 : 0 ≤ addr)
    (h1 : addr < sumSizes m.Variables) :
    ∃ j, j < m.Variables.length ∧
      m.resolveVariable addr
        = .ok (j, m.Variables.getD j default, addr - baseOf m.Variables j)
      ∧ baseOf m.Variables j ≤ addr
      ∧ addr < baseOf m.Variables j + (m.Variables.getD j default).Size := by
  obtain ⟨j, hj, heq, hle, hlt⟩ :=
    resolveLoop_found addr m.Variables 0 0 hpos h0 (by omega)
  simp only [Nat.zero_add, zero_add] at heq hle hlt
  refine ⟨j, hj, ?_, hle, hlt⟩
  unfold Machine.resolveVariable
  rw [heq]
  dsimp only
  rw [if_neg (by push_neg; exact ⟨hle, hlt⟩)]
  rfl

/-- Inside the declared space, the resolved index is unique: the variable
ranges tile the space (given nonnegative sizes). -/
theorem resolved_index_unique (vars : List Variable)
    (hpos : ∀ v ∈ vars, 0 ≤ v.Size) (addr : Int) (i j : Nat)
    (hi : i < vars.length) (hj : j < vars.length)
    (h1 : baseOf vars i ≤ addr) (h2 : addr < baseOf vars i + (vars.getD i default).Size)
    (h3 : baseOf vars j ≤ addr) (h4 : addr < baseOf vars j + (vars.getD j default).Size) :
    i = j := by
  by_contra hne
  rcases Nat.lt_or_ge i j with hij | hij
  · have hstep := baseOf_succ vars i hi
    have hmono := baseOf_mono vars hpos j (by omega) (i + 1) (by omega)
    omega
  · have hij' : j < i := by omega
    have hstep := baseOf_succ vars j hj
    have hmono := baseOf_mono vars hpos i (by omega) (j + 1) (by omega)
    omega

/-- `store` on a stack `S ++ [v, a]` pops both operands (address `a` on top,
value `v` second-from-top) and overwrites cell `off` of the resolved variable. -/
theorem store_spec (m : Machine) (S : List Int) (v a : Int) (hs : m.Stack = S ++ [v, a])
    (j : Nat) (vj : Variable) (off : Int)
    (hres : m.resolveVariable a = .ok (j, vj, off)) :
    m.store = .ok { m with
      Variables := m.Variables.set j { vj with Data := vj.Data.set off.toNat v },
      Stack := S } := by
  unfold Machine.store
  dsimp only
  rw [hs, if_neg (by rw [stack_len2]; omega)]
  rw [stack_getD_sub1, stack_getD_sub2, stack_take_sub2, hres]
  rfl

/-- `get` on a stack `S ++ [a]` pops the address and pushes the resolved
cell's current value in its place. -/
theorem get_spec (m : Machine) (S : List Int) (a : Int) (hs : m.Stack = S ++ [a])
    (j : Nat) (vj : Variable) (off : Int)
    (hres : m.resolveVariable a = .ok (j, vj, off)) :
    m.get = .ok { m with Stack := S ++ [vj.Data.getD off.toNat 0], StackNil := false } := by
  unfold Machine.get
  dsimp only
  rw [hs, if_neg (by simp only [List.length_append, List.length_cons, List.length_nil]; omega)]
  rw [stack_getD_last, stack_take_sub1, hres]
  rfl

/-- C4: for every machine (with the well-formed variable storage the runtime
maintains) and every in-range address `a` and value `v`: push `v`, push `a`,
Store, then push `a`, Get succeeds and leaves `v` on top of the stack with the
rest unchanged. Store pops both operands — the address from the top of the
stack, the value from second-from-top (the intermediate machine's stack is
exactly the original one) — and Get returns exactly the value Store wrote. -/
theorem c4_store_get_roundtrip (m : Machine) (a v : Int)
    (hwf : VarsWF m.Variables) (h0 : 0 ≤ a) (h1 : a < sumSizes m.Variables) :
    ∃ m₁ m₂,
      ((m.pushNumber v).bind fun x => x.pushNumber a).bind Machine.store = .ok m₁
      ∧ m₁.Stack = m.Stack
      ∧ (m₁.pushNumber a).bind Machine.get = .ok m₂
      ∧ m₂.Stack = m.Stack ++ [v] := by
  have hpos : ∀ u ∈ m.Variables, 0 ≤ u.Size := fun u hu => (hwf u hu).1
  obtain ⟨j, hj, hres, hle, hlt⟩ := resolveVariable_in_range m a hpos h0 h1
  have hvj_mem : m.Variables.getD j default ∈ m.Variables := by
    rw [List.getD_eq_getElem _ _ hj]
    exact List.getElem_mem hj
  obtain ⟨hvj_size, hvj_data⟩ := hwf _ hvj_mem
  -- abbreviations (plain terms, no tactic-level substitution)
  have hoff1 : 0 ≤ a - baseOf m.Variables j := by omega
  have hoff2 : a - baseOf m.Variables j < (m.Variables.getD j default).Size := by omega
  -- facts about the updated variable list
  have hmapD : (m.Variables.map (fun u => u.Size)).getD j default
      = (m.Variables.getD j default).Size := by
    rw [List.getD_eq_getElem _ _ (by simpa using hj), List.getElem_map]
    rw [List.getD_eq_getElem _ _ hj]
  have hsz' : (m.Variables.set j
        { m.Variables.getD j default with
          Data := (m.Variables.getD j default).Data.set (a - baseOf m.Variables j).toNat v }).map
        (fun u => u.Size)
      = m.Variables.map (fun u => u.Size) := by
    rw [List.map_set, ← hmapD, set_getD_same]
  have hpos' : ∀ u ∈ m.Variables.set j
      { m.Variables.getD j default with
        Data := (m.Variables.getD j default).Data.set (a - baseOf m.Variables j).toNat v },
      0 ≤ u.Size := by
    intro u hu
    rcases List.mem_or_eq_of_mem_set hu with hmem | rfl
    · exact hpos u hmem
    · exact hvj_size
  have hgetD_j : (m.Variables.set j
        { m.Variables.getD j default with
          Data := (m.Variables.getD j default).Data.set (a - baseOf m.Variables j).toNat v }).getD
        j default
      = { m.Variables.getD j default with
          Data := (m.Variables.getD j default).Data.set (a - baseOf m.Variables j).toNat v } :=
    getD_set_self _ _ _ _ hj
  -- Store: stack becomes `m.Stack`, variable j's cell `off` becomes v
  have hstore := store_spec
    { m with Stack := m.Stack ++ [v] ++ [a], StackNil := false }
    m.Stack v a (by simp) j (m.Variables.getD j default) (a - baseOf m.Variables j) hres
  -- Resolution against the updated variable list finds the same slot
  have hresM : Machine.resolveVariable
      { m with
        Variables := m.Variables.set j
          { m.Variables.getD j default with
            Data := (m.Variables.getD j default).Data.set (a - baseOf m.Variables j).toNat v },
        Stack := m.Stack, StackNil := false } a
      = .ok (j,
          { m.Variables.getD j default with
            Data := (m.Variables.getD j default).Data.set (a - baseOf m.Variables j).toNat v },
          a - baseOf m.Variables j) := by
    obtain ⟨j', hj', hres', hle', hlt'⟩ := resolveVariable_in_range
      { m with
        Variables := m.Variables.set j
          { m.Variables.getD j default with
            Data := (m.Variables.getD j default).Data.set (a - baseOf m.Variables j).toNat v },
        Stack := m.Stack, StackNil := false } a hpos' h0
      (by rw [show sumSizes (m.Variables.set j
            { m.Variables.getD j default with
              Data := (m.Variables.getD j default).Data.set (a - baseOf m.Variables j).toNat v })
          = sumSizes m.Variables from sumSizes_congr _ _ hsz']; exact h1)
    have hj'' : j' < m.Variables.length := by
      rw [← List.length_set m.Variables j
        { m.Variables.getD j default with
          Data := (m.Variables.getD j default).Data.set (a - baseOf m.Variables j).toNat v }]
      exact hj'
    have hbase' := baseOf_congr _ _ hsz' j'
    have hj'j : j' = j := by
      refine resolved_index_unique m.Variables hpos a j' j hj'' hj ?_ ?_ hle hlt
      · rw [← hbase']
        exact hle'
      · by_cases hkj : j' = j
        · subst hkj
          rw [← hbase']
          rw [hgetD_j] at hlt'
          exact hlt'
        · rw [← hbase']
          rw [getD_set_ne _ _ _ _ _ (fun he => hkj he.symm)] at hlt'
          exact hlt'
    subst hj'j
    rw [hres', hgetD_j, hbase']
  -- Get reads back exactly the stored value
  have hval : ({ m.Variables.getD j default with
      Data := (m.Variables.getD j default).Data.set (a - baseOf m.Variables j).toNat v }
        : Variable).Data.getD (a - baseOf m.Variables j).toNat 0 = v := by
    refine getD_set_self _ _ _ _ ?_
    rw [hvj_data]
    omega
  have hget := get_spec
    { m with
      Variables := m.Variables.set j
        { m.Variables.getD j default with
          Data := (m.Variables.getD j default).Data.set (a - baseOf m.Variables j).toNat v },
      Stack := m.Stack ++ [a], StackNil := false }
    m.Stack a rfl j
    { m.Variables.getD j default with
      Data := (m.Variables.getD j default).Data.set (a - baseOf m.Variables j).toNat v }
    (a - baseOf m.Variables j) hresM
  rw [hval] at hget
  refine ⟨{ m with
      Variables := m.Variables.set j
        { m.Variables.getD j default with
          Data := (m.Variables.getD j default).Data.set (a - baseOf m.Variables j).toNat v },
      Stack := m.Stack, StackNil := false },
    { m with
      Variables := m.Variables.set j
        { m.Variables.getD j default with
          Data := (m.Variables.getD j default).Data.set (a - baseOf m.Variables j).toNat v },
      Stack := m.Stack ++ [v], StackNil := false }, ?_, rfl, ?_, rfl⟩
  · simp only [Machine.pushNumber, ExecResult.bind]
    exact hstore
  · simp only [Machine.pushNumber, ExecResult.bind]
    exact hget

/-! ## Parser pushback lemmas (claim C8) -/

/-- `Parser.scan` either replays the buffered token under the read cursor, or
pulls a fresh token, records it at the write cursor, and advances both. -/
theorem scan_cases (p : Parser) :
    (p.actual ≠ p.latest ∧
      p.scan = ((p.buf.getD p.actual ⟨.ILLEGAL, ""⟩).tok,
        (p.buf.getD p.actual ⟨.ILLEGAL, ""⟩).lit,
        { p with actual := (p.actual + 1) % 100 }))
    ∨ (p.actual = p.latest ∧
      p.scan = ((lexNext p.inp).1, (lexNext p.inp).2.1,
        { inp := (lexNext p.inp).2.2,
          buf := p.buf.set p.actual ⟨(lexNext p.inp).1, (lexNext p.inp).2.1⟩,
          actual := (p.latest + 1) % 100, latest := (p.latest + 1) % 100 })) := by
  by_cases h : p.actual = p.latest
  · right
    refine ⟨h, ?_⟩
    unfold Parser.scan
    rw [if_neg (fun hc => hc h)]
  · left
    refine ⟨h, ?_⟩
    unfold Parser.scan
    rw [if_pos h]

/-- Everything one scan step guarantees about the successor state. -/
theorem scan_spec (p : Parser) (t : Token) (l : String) (p' : Parser)
    (h : p.scan = (t, l, p')) :
    p'.actual = (p.actual + 1) % 100
    ∧ p'.buf.length = p.buf.length
    ∧ (p.actual < p.buf.length → p'.buf.getD p.actual ⟨.ILLEGAL, ""⟩ = ⟨t, l⟩)
    ∧ (∀ k, k ≠ p.actual → p'.buf.getD k ⟨.ILLEGAL, ""⟩ = p.buf.getD k ⟨.ILLEGAL, ""⟩)
    ∧ ((p.actual ≠ p.latest ∧ p'.latest = p.latest)
        ∨ (p.actual = p.latest ∧ p'.latest = (p.latest + 1) % 100)) := by
  rcases scan_cases p with ⟨hne, heq⟩ | ⟨he, heq⟩
  · rw [h] at heq
    simp only [Prod.mk.injEq] at heq
    obtain ⟨ht, hl, hp⟩ := heq
    subst hp
    refine ⟨rfl, rfl, ?_, fun k _ => rfl, Or.inl ⟨hne, rfl⟩⟩
    intro _
    rw [ht, hl]
  · rw [h] at heq
    simp only [Prod.mk.injEq] at heq
    obtain ⟨ht, hl, hp⟩ := heq
    subst hp
    refine ⟨by rw [he], List.length_set _ _ _, ?_, ?_, Or.inr ⟨he, rfl⟩⟩
    · intro hb
      rw [ht, hl]
      exact getD_set_self _ _ _ _ hb
    · intro k hk
      exact getD_set_ne _ _ _ _ _ (fun hc => hk hc.symm)

theorem scan_wf (p : Parser) (t : Token) (l : String) (p' : Parser)
    (h : p.scan = (t, l, p')) (hwf : ParserWF p) : ParserWF p' := by
  obtain ⟨hbuf, ha, hl⟩ := hwf
  obtain ⟨ha', hbuf', -, -, hlat⟩ := scan_spec p t l p' h
  refine ⟨by rw [hbuf', hbuf], by rw [ha']; omega, ?_⟩
  rcases hlat with ⟨-, hl'⟩ | ⟨-, hl'⟩ <;> rw [hl'] <;> omega

theorem unscan_wf (p : Parser) (hwf : ParserWF p) : ParserWF p.unscan := by
  obtain ⟨hbuf, ha, hl⟩ := hwf
  unfold Parser.unscan
  refine ⟨hbuf, ?_, hl⟩
  dsimp only
  split <;> omega

theorem unscan_fields (p : Parser) :
    p.unscan.buf = p.buf ∧ p.unscan.inp = p.inp ∧ p.unscan.latest = p.latest
    ∧ p.unscan.actual = (if p.actual = 0 then 99 else p.actual - 1) :=
  ⟨rfl, rfl, rfl, rfl⟩

/-- C8: after the identifier of a variable declaration the parser reads
exactly two lookahead tokens. If they are `NUMBER` then `CELLS`, both stay
consumed and the cell count is the parsed integer, which must be positive or
parsing fails with "array cannot have less than 1 cell". In every other case
both tokens are pushed back — the resulting state's next two scans replay
exactly those two tokens, so they are parsed as subsequent statements — and
the cell count defaults to 1. -/
theorem c8_variable_decl_lookahead
    (p0 pa pb p1 p2 : Parser) (tv t1 t2 : Token) (lv li nr l2 : String)
    (hwf : ParserWF p0)
    (h0 : p0.scan = (tv, lv, pa))
    (h1 : pa.scan = (.Ident, li, pb))
    (h2 : pb.scan = (t1, nr, p1))
    (h3 : p1.scan = (t2, l2, p2)) :
    ((t1 = .Number ∧ t2 = .Cells) →
      ∀ c, atoi nr = some c →
        (0 < c → parseVariableDeclaration p0 = .ok (.decl li c, p2))
        ∧ (c ≤ 0 → parseVariableDeclaration p0 = .error "array cannot have less than 1 cell"))
    ∧ (¬(t1 = .Number ∧ t2 = .Cells) →
        parseVariableDeclaration p0 = .ok (.decl li 1, p2.unscan.unscan)
        ∧ ∃ q1, p2.unscan.unscan.scan = (t1, nr, q1)
            ∧ (q1.scan).1 = t2 ∧ (q1.scan).2.1 = l2) := by
  have hunf : parseVariableDeclaration p0
      = (if t1 = .Number ∧ t2 = .Cells then
          match atoi nr with
          | none => .error ("invalid number literal: " ++ nr)
          | some cells =>
            if cells ≤ 0 then .error "array cannot have less than 1 cell"
            else .ok (.decl li cells, p2)
        else .ok (.decl li 1, p2.unscan.unscan)) := by
    unfold parseVariableDeclaration
    rw [h0]
    dsimp only
    rw [h1]
    dsimp only
    rw [if_neg (by simp)]
    rw [h2]
    dsimp only
    rw [h3]
  constructor
  · rintro ⟨ha, hb⟩ c hc
    constructor
    · intro hcpos
      rw [hunf, if_pos ⟨ha, hb⟩, hc]
      dsimp only
      rw [if_neg (by omega)]
    · intro hcneg
      rw [hunf, if_pos ⟨ha, hb⟩, hc]
      dsimp only
      rw [if_pos hcneg]
  · intro hn
    refine ⟨by rw [hunf, if_neg hn], ?_⟩
    -- well-formedness along the scan chain
    have wf_pa := scan_wf _ _ _ _ h0 hwf
    have wf_pb := scan_wf _ _ _ _ h1 wf_pa
    have wf_p1 := scan_wf _ _ _ _ h2 wf_pb
    have wf_p2 := scan_wf _ _ _ _ h3 wf_p1
    obtain ⟨hbufP, haP, hlP⟩ := wf_pb
    obtain ⟨hbuf1, ha1, hl1⟩ := wf_p1
    obtain ⟨hbuf2, ha2, hl2⟩ := wf_p2
    obtain ⟨hp1a, hbl1, hat1, hne1, hlat1⟩ := scan_spec pb t1 nr p1 h2
    obtain ⟨hp2a', hbl2, hat2, hne2, hlat2⟩ := scan_spec p1 t2 l2 p2 h3
    have hp2a : p2.actual = (pb.actual + 2) % 100 := by
      rw [hp2a', hp1a]
      omega
    -- push back twice: the read cursor returns to where `t1` was recorded
    have hq_actual : p2.unscan.unscan.actual = pb.actual := by
      unfold Parser.unscan
      dsimp only
      rw [hp2a]
      by_cases c1 : (pb.actual + 2) % 100 = 0
      · rw [if_pos c1, if_neg (by omega)]
        omega
      · rw [if_neg c1]
        by_cases c2 : (pb.actual + 2) % 100 - 1 = 0
        · rw [if_pos c2]
          omega
        · rw [if_neg c2]
          omega
    -- the two lookahead tokens are still in the buffer
    have hbufpb : p1.buf.getD pb.actual ⟨.ILLEGAL, ""⟩ = ⟨t1, nr⟩ := hat1 (by omega)
    have hneq01 : pb.actual ≠ p1.actual := by
      rw [hp1a]
      omega
    have hbufp2_at_pb : p2.buf.getD pb.actual ⟨.ILLEGAL, ""⟩ = ⟨t1, nr⟩ := by
      rw [hne2 pb.actual hneq01]
      exact hbufpb
    have hbufp2_at_p1 : p2.buf.getD p1.actual ⟨.ILLEGAL, ""⟩ = ⟨t2, l2⟩ :=
      hat2 (by omega)
    -- after the double pushback the cursors differ, so scans replay the buffer
    have hq_ne : pb.actual ≠ p2.latest := by
      rcases hlat1 with ⟨hna, hl1eq⟩ | ⟨hea, hl1eq⟩ <;>
        rcases hlat2 with ⟨hnb, hl2eq⟩ | ⟨heb, hl2eq⟩ <;> omega
    have hq1_ne : p1.actual ≠ p2.latest := by
      rcases hlat2 with ⟨hnb, hl2eq⟩ | ⟨heb, hl2eq⟩ <;> omega
    -- first replayed scan yields (t1, nr)
    rcases scan_cases p2.unscan.unscan with ⟨hne, heq⟩ | ⟨he, heq⟩
    · have hlex : p2.unscan.unscan.buf.getD p2.unscan.unscan.actual ⟨.ILLEGAL, ""⟩
          = ⟨t1, nr⟩ := by
        rw [show p2.unscan.unscan.buf = p2.buf from rfl, hq_actual]
        exact hbufp2_at_pb
      rw [hlex] at heq
      refine ⟨_, heq, ?_, ?_⟩
      -- second replayed scan yields (t2, l2)
      all_goals {
        rcases scan_cases { p2.unscan.unscan with
            actual := (p2.unscan.unscan.actual + 1) % 100 } with ⟨hne', heq'⟩ | ⟨he', heq'⟩
        · have hlex2 : ({ p2.unscan.unscan with
              actual := (p2.unscan.unscan.actual + 1) % 100 } : Parser).buf.getD
                ({ p2.unscan.unscan with
                  actual := (p2.unscan.unscan.actual + 1) % 100 } : Parser).actual
                ⟨.ILLEGAL, ""⟩ = ⟨t2, l2⟩ := by
            rw [show ({ p2.unscan.unscan with
                actual := (p2.unscan.unscan.actual + 1) % 100 } : Parser).buf
              = p2.buf from rfl]
            rw [show ({ p2.unscan.unscan with
                actual := (p2.unscan.unscan.actual + 1) % 100 } : Parser).actual
              = (p2.unscan.unscan.actual + 1) % 100 from rfl]
            rw [hq_actual, ← hp1a]
            exact hbufp2_at_p1
          rw [hlex2] at heq'
          rw [heq']
        · exfalso
          have : (p2.unscan.unscan.actual + 1) % 100 = p2.latest := he'
          rw [hq_actual, ← hp1a] at this
          exact hq1_ne this
      }
    · exfalso
      have : p2.unscan.unscan.actual = p2.unscan.unscan.latest := he
      rw [hq_actual, show p2.unscan.unscan.latest = p2.latest from rfl] at this
      exact hq_ne this

/-- C4 witness: a machine with one 2-cell variable `x`, storing 9 at address 1
and reading it back. -/
theorem c4_witness :
    VarsWF [⟨"x", 2, [0, 0]⟩]
    ∧ ∃ m₁ m₂,
      ((({ Addresses := [("x", 0)], Variables := [⟨"x", 2, [0, 0]⟩], Functions := [],
            Stack := [], StackNil := true } : Machine).pushNumber 9).bind
          (fun x => x.pushNumber 1)).bind Machine.store = .ok m₁
      ∧ m₁.Stack = []
      ∧ (m₁.pushNumber 1).bind Machine.get = .ok m₂
      ∧ m₂.Stack = [] ++ [9] :=
  ⟨by unfold VarsWF; decide,
   c4_store_get_roundtrip
     { Addresses := [("x", 0)], Variables := [⟨"x", 2, [0, 0]⟩], Functions := [],
       Stack := [], StackNil := true } 1 9 (by unfold VarsWF; decide) (by decide) (by decide)⟩

/-- C8 witness: parsing `VARIABLE x 3 5` hits the push-back branch (NUMBER is
followed by NUMBER, not CELLS), so the declaration keeps the default 1 cell
and the parser state has both lookahead tokens pushed back. -/
theorem c8_witness :
    parseVariableDeclaration (NewParser "VARIABLE x 3 5")
      = .ok (.decl "x" 1,
          (((((NewParser "VARIABLE x 3 5").scan.2.2.scan).2.2.scan).2.2.scan).2.2).unscan.unscan) := by
  have h := (c8_variable_decl_lookahead
    (NewParser "VARIABLE x 3 5")
    ((NewParser "VARIABLE x 3 5").scan.2.2)
    ((NewParser "VARIABLE x 3 5").scan.2.2.scan.2.2)
    ((NewParser "VARIABLE x 3 5").scan.2.2.scan.2.2.scan.2.2)
    ((NewParser "VARIABLE x 3 5").scan.2.2.scan.2.2.scan.2.2.scan.2.2)
    .Variable .Number .Number "VARIABLE" "x" "3" "5"
    (by refine ⟨?_, ?_, ?_⟩ <;> decide)
    rfl rfl rfl rfl).2 (by decide)
  exact h.1

end Techon
